import Mathlib

/-!
Shallow embedding of the link-health / partition-reconciliation engine of
`simple-bm.go` (bm-cli).  The Redis store is modelled as six fields (the six
keys the program uses); a stored sorted-set member is either a record that
parses (`ZMember.ok`) or a blob that `json.Unmarshal` rejects (`ZMember.bad`);
the network is modelled by the outcome of each HTTP stage.  Concurrency of the
bulk prober is modelled by a completion-order parameter (the order in which
workers write their results) and, for the semaphore bound, by a small-step
transition system.
-/

/-- The `Bookmark` struct of simple-bm.go (scores/timestamps as `Int`). -/
structure Bookmark where
  url : String
  title : String
  description : String
  tags : List String
  createdAt : Int
  updatedAt : Int
  id : String
  status : String
  deriving DecidableEq, Repr

/-- The `DuplicateInfo` struct of simple-bm.go. -/
structure DuplicateInfo where
  url : String
  count : Nat
  deriving DecidableEq, Repr

/-- A member stored in a Redis sorted set: either the JSON of a bookmark
(`json.Marshal` is injective on the struct, so we keep the record itself) or a
blob that fails `json.Unmarshal`. -/
inductive ZMember where
  | ok (bm : Bookmark)
  | bad (raw : String)
  deriving DecidableEq, Repr

/-- The six Redis keys used by simple-bm.go:
`bookmarks:index`, `bookmarks:urls`, `bookmarks:active`, `bookmarks:dead`,
`bookmarks:urls:active`, `bookmarks:urls:dead`. -/
structure Store where
  combined : List (Int × ZMember)
  urlSet : List String
  activeIdx : List (Int × ZMember)
  deadIdx : List (Int × ZMember)
  urlActive : List String
  urlDead : List String
  deriving DecidableEq, Repr

/-- Redis `SADD`: add the value to the set if absent. -/
def saddL (l : List String) (v : String) : List String :=
  if v ∈ l then l else l ++ [v]

/-- Redis `SREM`: remove the value from the set. -/
def sremL (l : List String) (v : String) : List String :=
  l.filter (fun x => !(x == v))

/-- Insert a scored member into a score-ordered list (position of `ZADD`). -/
def insertByScore : List (Int × ZMember) → Int → ZMember → List (Int × ZMember)
  | [], sc, m => [(sc, m)]
  | (s0, m0) :: rest, sc, m =>
    if sc < s0 then (sc, m) :: (s0, m0) :: rest
    else (s0, m0) :: insertByScore rest sc m

/-- Redis `ZADD`: a member is unique in a sorted set, so an existing copy is
re-scored; the range read returns members in score order. -/
def zinsert (z : List (Int × ZMember)) (sc : Int) (m : ZMember) : List (Int × ZMember) :=
  insertByScore (z.filter (fun p => !decide (p.2 = m))) sc m

/-- `json.Unmarshal` of a stored member into a `Bookmark`. -/
def parseMember : ZMember → Option Bookmark
  | .ok bm => some bm
  | .bad _ => none

/-- The scan loop shared by `getFromZSet` and `getAllBookmarks`
(simple-bm.go lines 301-308 and 331-338): iterate the range result in order,
silently skipping members that fail to parse. -/
def getFromZSetPure (z : List (Int × ZMember)) : List Bookmark :=
  z.filterMap (fun p => parseMember p.2)

/-- `getFromZSet` (simple-bm.go lines 295-310): the only error path is the
range read itself; parse failures are skipped, never reported. -/
def getFromZSet (r : Except Unit (List (Int × ZMember))) : Except Unit (List Bookmark) :=
  match r with
  | .error e => .error e
  | .ok es => .ok (getFromZSetPure es)

/-- `getAllBookmarks` (simple-bm.go lines 324-341): full scan of the combined
index `bookmarks:index`, with a read that succeeds. -/
def getAllBookmarksPure (s : Store) : List Bookmark :=
  getFromZSetPure s.combined

/-- The loop body of `removeDuplicates` with its `seen` map made explicit. -/
def removeDuplicatesAux (seen : List String) : List Bookmark → List Bookmark
  | [] => []
  | bm :: rest =>
    if bm.url ∈ seen then removeDuplicatesAux seen rest
    else bm :: removeDuplicatesAux (bm.url :: seen) rest

/-- `removeDuplicates` (simple-bm.go lines 363-375): keep the first occurrence
of each URL, exact string equality, preserving input order. -/
def removeDuplicates (bookmarks : List Bookmark) : List Bookmark :=
  removeDuplicatesAux [] bookmarks

/-- `findDuplicates` (simple-bm.go lines 343-361).  The Go code iterates a map
(unspecified order); we emit reports in first-occurrence order. -/
def findDuplicates (bookmarks : List Bookmark) : List DuplicateInfo :=
  (removeDuplicates bookmarks).filterMap (fun bm =>
    let c := bookmarks.countP (fun x => x.url == bm.url)
    if 1 < c then some ⟨bm.url, c⟩ else none)

/-- Outcome of one HTTP stage: a response with a status code, or a transport
failure (error, timeout, DNS/TLS failure, nil response). -/
inductive HTTPResult where
  | resp (status : Nat)
  | failed
  deriving DecidableEq, Repr

/-- The GET-with-`Range: bytes=0-0` fallback of `urlHealthy`
(simple-bm.go lines 460-471): request construction failure returns false;
otherwise healthy iff a response arrives with status below 400. -/
def urlHealthyFallback (buildOk : Bool) (get : HTTPResult) : Bool :=
  if !buildOk then false
  else
    match get with
    | .resp st => decide (st < 400)
    | .failed => false

/-- `urlHealthy` (simple-bm.go lines 452-472): HEAD first — a response with
status below 400 is healthy; on any other HEAD outcome fall through to the
ranged GET. -/
def urlHealthy (head : HTTPResult) (buildOk : Bool) (get : HTTPResult) : Bool :=
  match head with
  | .resp st => if st < 400 then true else urlHealthyFallback buildOk get
  | .failed => urlHealthyFallback buildOk get

/-- One worker of `removeDeadLinks` (simple-bm.go lines 426-436): probe record
`i` and, only when it is healthy, set slot `i` of the keep array to true. -/
def keepWrite (healthy : String → Bool) (bookmarks : List Bookmark)
    (keep : List Bool) (i : Nat) : List Bool :=
  match bookmarks[i]? with
  | some bm => if healthy bm.url then keep.set i true else keep
  | none => keep

/-- The keep array of `removeDeadLinks` after all workers have finished, when
they completed in the order given by `order` (zero-initialised, one
index-disjoint write per record). -/
def keepArray (healthy : String → Bool) (bookmarks : List Bookmark)
    (order : List Nat) : List Bool :=
  order.foldl (keepWrite healthy bookmarks) (List.replicate bookmarks.length false)

/-- The collection loop of `removeDeadLinks` (simple-bm.go lines 442-447):
walk the keep array in index order and gather the kept records. -/
def collectKept : List Bookmark → List Bool → List Bookmark
  | bm :: rest, k :: ks => if k then bm :: collectKept rest ks else collectKept rest ks
  | _, _ => []

/-- `removeDeadLinks` (simple-bm.go lines 412-449) with completion order
`order`: the workers may finish in any order, each writing its own slot. -/
def removeDeadLinksRun (healthy : String → Bool) (bookmarks : List Bookmark)
    (order : List Nat) : List Bookmark :=
  collectKept bookmarks (keepArray healthy bookmarks order)

/-- `checkDeadLinks` (simple-bm.go lines 377-410) with completion order
`order`: each worker whose probe failed appends its record, under a mutex, in
completion order. -/
def checkDeadLinksRun (healthy : String → Bool) (bookmarks : List Bookmark)
    (order : List Nat) : List Bookmark :=
  order.filterMap (fun i =>
    match bookmarks[i]? with
    | some bm => if healthy bm.url then none else some bm
    | none => none)

/-- `checkBookmarks` (simple-bm.go lines 168-216): read the combined index,
compute duplicate reports and dead links; the store is only read. -/
def checkBookmarksRun (healthy : String → Bool) (order : List Nat) (s : Store) :
    Store × List DuplicateInfo × List Bookmark :=
  (s, findDuplicates (getAllBookmarksPure s),
     checkDeadLinksRun healthy (getAllBookmarksPure s) order)

/-- One of the six Redis keys, for naming the target of a write. -/
inductive RKey where
  | combinedK | urlSetK | activeIdxK | deadIdxK | urlActiveK | urlDeadK
  deriving DecidableEq, Repr

/-- A single Redis write issued by simple-bm.go. -/
inductive StoreOp where
  | del (k : RKey)
  | zadd (k : RKey) (score : Int) (m : ZMember)
  | sadd (k : RKey) (v : String)
  | srem (k : RKey) (v : String)
  deriving DecidableEq, Repr

/-- Effect of one write on the store.  Key/operation pairings that the program
never issues (e.g. `zadd` on a plain set key) leave the store unchanged. -/
def execOp (s : Store) : StoreOp → Store
  | .del .combinedK => { s with combined := [] }
  | .del .urlSetK => { s with urlSet := [] }
  | .del .activeIdxK => { s with activeIdx := [] }
  | .del .deadIdxK => { s with deadIdx := [] }
  | .del .urlActiveK => { s with urlActive := [] }
  | .del .urlDeadK => { s with urlDead := [] }
  | .zadd .combinedK sc m => { s with combined := zinsert s.combined sc m }
  | .zadd .activeIdxK sc m => { s with activeIdx := zinsert s.activeIdx sc m }
  | .zadd .deadIdxK sc m => { s with deadIdx := zinsert s.deadIdx sc m }
  | .sadd .urlSetK v => { s with urlSet := saddL s.urlSet v }
  | .sadd .urlActiveK v => { s with urlActive := saddL s.urlActive v }
  | .sadd .urlDeadK v => { s with urlDead := saddL s.urlDead v }
  | .srem .urlDeadK v => { s with urlDead := sremL s.urlDead v }
  | _ => s

/-- Run a list of writes the way the Go code does: the result object of each
call is never inspected, so a failing write (chosen by the oracle `fails`,
indexed by position) simply has no effect and execution continues. -/
def runOps (fails : Nat → Bool) : List StoreOp → Store → Store
  | [], s => s
  | op :: rest, s =>
    runOps (fun j => fails (j + 1)) rest (if fails 0 then s else execOp s op)

/-- Run a list of writes with every write succeeding. -/
def runAll : List StoreOp → Store → Store
  | [], s => s
  | op :: rest, s => runAll rest (execOp s op)

/-- The dead set computed by `saveBookmarksClassified`
(simple-bm.go lines 499-510): every record of the full (pre-dedup) combined
index whose URL is not among the active URLs. -/
def deadOf (active all : List Bookmark) : List Bookmark :=
  all.filter (fun bm => !(active.any (fun a => a.url == bm.url)))

/-- The exact write sequence of `saveBookmarksClassified`
(simple-bm.go lines 512-536): delete the four partition keys, repopulate
active then dead, delete the two combined keys, repopulate them from active. -/
def saveClassifiedOps (active dead : List Bookmark) : List StoreOp :=
  [StoreOp.del .activeIdxK, StoreOp.del .deadIdxK,
   StoreOp.del .urlActiveK, StoreOp.del .urlDeadK]
  ++ active.flatMap (fun bm =>
       [StoreOp.zadd .activeIdxK bm.createdAt (.ok bm), StoreOp.sadd .urlActiveK bm.url])
  ++ dead.flatMap (fun bm =>
       [StoreOp.zadd .deadIdxK bm.createdAt (.ok bm), StoreOp.sadd .urlDeadK bm.url])
  ++ [StoreOp.del .combinedK, StoreOp.del .urlSetK]
  ++ active.flatMap (fun bm =>
       [StoreOp.zadd .combinedK bm.createdAt (.ok bm), StoreOp.sadd .urlSetK bm.url])

/-- `saveBookmarksClassified` (simple-bm.go lines 492-539) with failure
oracles: only the initial full read is checked for an error; each write's
error is ignored (a failing write is skipped and the next one still runs),
and the function then reports success. -/
def saveBookmarksClassifiedRun (readFails : Bool) (fails : Nat → Bool)
    (active : List Bookmark) (s : Store) : Except Unit Store :=
  if readFails then .error ()
  else .ok (runOps fails
    (saveClassifiedOps active (deadOf active (getAllBookmarksPure s))) s)

/-- `saveBookmarksClassified` on the failure-free path. -/
def saveBookmarksClassifiedPure (active : List Bookmark) (s : Store) : Store :=
  runAll (saveClassifiedOps active (deadOf active (getAllBookmarksPure s))) s

/-- `cleanBookmarks` (simple-bm.go lines 218-250) on the failure-free path:
read all, return early on an empty collection, dedupe, drop unhealthy links
(workers completing in order `order`), and rewrite the partitions. -/
def cleanBookmarksRun (healthy : String → Bool) (order : List Nat) (s : Store) : Store :=
  let bookmarks := getAllBookmarksPure s
  if bookmarks.isEmpty then s
  else saveBookmarksClassifiedPure
    (removeDeadLinksRun healthy (removeDuplicates bookmarks) order) s

/-- `deadReviveCmd` (simple-bm.go lines 635-656): linear scan of the parsed
dead index for the first exact URL match; on a hit add the record to the
active index, the active URL set and the combined index and remove the URL
from the dead URL set (the dead index row is not deleted); on a miss exit
with "url not found in dead list" (`none`) and touch nothing. -/
def deadReviveCmd (url : String) (s : Store) : Option Store :=
  match (getFromZSetPure s.deadIdx).find? (fun bm => bm.url == url) with
  | some bm => some { s with
      activeIdx := zinsert s.activeIdx bm.createdAt (.ok bm),
      urlActive := saddL s.urlActive bm.url,
      urlDead := sremL s.urlDead bm.url,
      combined := zinsert s.combined bm.createdAt (.ok bm) }
  | none => none

/-- Counters of one run of the bounded concurrent prober
(`checkDeadLinks`/`removeDeadLinks`): records spawned so far by the main
loop, workers holding a semaphore token, workers that finished (probe done,
token released). -/
structure ProbeRun where
  spawned : Nat
  inFlight : Nat
  finished : Nat
  deriving DecidableEq, Repr

/-- Small-step semantics of the probe loop with `n` records and semaphore
capacity `k`: `spawn` is the main loop sending on the buffered channel `sem`
(it can only complete while fewer than `k` tokens are held) and starting a
worker; `finish` is a worker completing its probe and releasing its token. -/
inductive probeStep (k n : Nat) : ProbeRun → ProbeRun → Prop
  | spawn (sp fl fin : Nat) (hsp : sp < n) (hfl : fl < k) :
      probeStep k n ⟨sp, fl, fin⟩ ⟨sp + 1, fl + 1, fin⟩
  | finish (sp fl fin : Nat) :
      probeStep k n ⟨sp, fl + 1, fin⟩ ⟨sp, fl, fin + 1⟩

/-- States reachable during one bulk probe run. -/
def probeReach (k n : Nat) : ProbeRun → Prop :=
  Relation.ReflTransGen (probeStep k n) ⟨0, 0, 0⟩

/-- The condition under which `wg.Wait()` lets the function return: the main
loop has spawned every record and every spawned worker has called `Done`. -/
def probeReturn (n : Nat) (s : ProbeRun) : Prop :=
  s.spawned = n ∧ s.finished = s.spawned

/-! ### Helper lemmas: set and sorted-set primitives -/

lemma mem_saddL {u v : String} {l : List String} :
    u ∈ saddL l v ↔ u ∈ l ∨ u = v := by
  unfold saddL
  split
  · rename_i hv
    constructor
    · exact Or.inl
    · rintro (h | rfl)
      · exact h
      · exact hv
  · simp [List.mem_append]

lemma mem_sremL {u v : String} {l : List String} :
    u ∈ sremL l v ↔ u ∈ l ∧ u ≠ v := by
  simp [sremL]

lemma mem_insertByScore {p : Int × ZMember} {z : List (Int × ZMember)}
    {sc : Int} {m : ZMember} :
    p ∈ insertByScore z sc m ↔ p = (sc, m) ∨ p ∈ z := by
  induction z with
  | nil => simp [insertByScore]
  | cons q rest ih =>
    obtain ⟨s0, m0⟩ := q
    unfold insertByScore
    split
    · simp [List.mem_cons]
    · simp [List.mem_cons, ih]
      tauto

lemma mem_zinsert {p : Int × ZMember} {z : List (Int × ZMember)}
    {sc : Int} {m : ZMember} :
    p ∈ zinsert z sc m ↔ p = (sc, m) ∨ (p ∈ z ∧ p.2 ≠ m) := by
  simp [zinsert, mem_insertByScore, List.mem_filter]

/-! ### Helper lemmas: running write sequences -/

lemma runAll_append (ops1 ops2 : List StoreOp) (s : Store) :
    runAll (ops1 ++ ops2) s = runAll ops2 (runAll ops1 s) := by
  induction ops1 generalizing s with
  | nil => simp [runAll]
  | cons op rest ih => simp [runAll, ih]

/-- Fold adding records into a sorted index. -/
def zfold (init : List (Int × ZMember)) (l : List Bookmark) : List (Int × ZMember) :=
  l.foldl (fun z bm => zinsert z bm.createdAt (.ok bm)) init

/-- Fold adding record URLs into a membership set. -/
def sfold (init : List String) (l : List Bookmark) : List String :=
  l.foldl (fun u bm => saddL u bm.url) init

lemma mem_sfold {u : String} {l : List Bookmark} {init : List String} :
    u ∈ sfold init l ↔ u ∈ init ∨ u ∈ l.map (fun bm => bm.url) := by
  induction l generalizing init with
  | nil => simp [sfold]
  | cons bm rest ih =>
    show u ∈ sfold (saddL init bm.url) rest ↔ _
    rw [ih]
    simp [mem_saddL, List.mem_cons]
    tauto

lemma runAll_activeLoop (l : List Bookmark) (s : Store) :
    runAll (l.flatMap (fun bm =>
      [StoreOp.zadd .activeIdxK bm.createdAt (.ok bm),
       StoreOp.sadd .urlActiveK bm.url])) s
    = { s with activeIdx := zfold s.activeIdx l, urlActive := sfold s.urlActive l } := by
  induction l generalizing s with
  | nil => simp [runAll, zfold, sfold]
  | cons bm rest ih =>
    have hstep : (bm :: rest).flatMap (fun bm =>
        [StoreOp.zadd .activeIdxK bm.createdAt (.ok bm), StoreOp.sadd .urlActiveK bm.url])
        = StoreOp.zadd .activeIdxK bm.createdAt (.ok bm) :: StoreOp.sadd .urlActiveK bm.url ::
          rest.flatMap (fun bm =>
            [StoreOp.zadd .activeIdxK bm.createdAt (.ok bm), StoreOp.sadd .urlActiveK bm.url]) := rfl
    rw [hstep]
    show runAll _ (execOp (execOp s (StoreOp.zadd .activeIdxK bm.createdAt (.ok bm)))
      (StoreOp.sadd .urlActiveK bm.url)) = _
    rw [show execOp (execOp s (StoreOp.zadd .activeIdxK bm.createdAt (.ok bm)))
      (StoreOp.sadd .urlActiveK bm.url) = ({ s with
          activeIdx := zinsert s.activeIdx bm.createdAt (.ok bm),
          urlActive := saddL s.urlActive bm.url } : Store) from rfl]
    rw [ih]
    simp [zfold, sfold]

lemma runAll_deadLoop (l : List Bookmark) (s : Store) :
    runAll (l.flatMap (fun bm =>
      [StoreOp.zadd .deadIdxK bm.createdAt (.ok bm),
       StoreOp.sadd .urlDeadK bm.url])) s
    = { s with deadIdx := zfold s.deadIdx l, urlDead := sfold s.urlDead l } := by
  induction l generalizing s with
  | nil => simp [runAll, zfold, sfold]
  | cons bm rest ih =>
    have hstep : (bm :: rest).flatMap (fun bm =>
        [StoreOp.zadd .deadIdxK bm.createdAt (.ok bm), StoreOp.sadd .urlDeadK bm.url])
        = StoreOp.zadd .deadIdxK bm.createdAt (.ok bm) :: StoreOp.sadd .urlDeadK bm.url ::
          rest.flatMap (fun bm =>
            [StoreOp.zadd .deadIdxK bm.createdAt (.ok bm), StoreOp.sadd .urlDeadK bm.url]) := rfl
    rw [hstep]
    show runAll _ (execOp (execOp s (StoreOp.zadd .deadIdxK bm.createdAt (.ok bm)))
      (StoreOp.sadd .urlDeadK bm.url)) = _
    rw [show execOp (execOp s (StoreOp.zadd .deadIdxK bm.createdAt (.ok bm)))
      (StoreOp.sadd .urlDeadK bm.url) = ({ s with
          deadIdx := zinsert s.deadIdx bm.createdAt (.ok bm),
          urlDead := saddL s.urlDead bm.url } : Store) from rfl]
    rw [ih]
    simp [zfold, sfold]

lemma runAll_combinedLoop (l : List Bookmark) (s : Store) :
    runAll (l.flatMap (fun bm =>
      [StoreOp.zadd .combinedK bm.createdAt (.ok bm),
       StoreOp.sadd .urlSetK bm.url])) s
    = { s with combined := zfold s.combined l, urlSet := sfold s.urlSet l } := by
  induction l generalizing s with
  | nil => simp [runAll, zfold, sfold]
  | cons bm rest ih =>
    have hstep : (bm :: rest).flatMap (fun bm =>
        [StoreOp.zadd .combinedK bm.createdAt (.ok bm), StoreOp.sadd .urlSetK bm.url])
        = StoreOp.zadd .combinedK bm.createdAt (.ok bm) :: StoreOp.sadd .urlSetK bm.url ::
          rest.flatMap (fun bm =>
            [StoreOp.zadd .combinedK bm.createdAt (.ok bm), StoreOp.sadd .urlSetK bm.url]) := rfl
    rw [hstep]
    show runAll _ (execOp (execOp s (StoreOp.zadd .combinedK bm.createdAt (.ok bm)))
      (StoreOp.sadd .urlSetK bm.url)) = _
    rw [show execOp (execOp s (StoreOp.zadd .combinedK bm.createdAt (.ok bm)))
      (StoreOp.sadd .urlSetK bm.url) = ({ s with
          combined := zinsert s.combined bm.createdAt (.ok bm),
          urlSet := saddL s.urlSet bm.url } : Store) from rfl]
    rw [ih]
    simp [zfold, sfold]

/-- The final store written by `saveBookmarksClassified` on the failure-free
path, field by field. -/
lemma saveClassifiedPure_fields (active : List Bookmark) (s : Store) :
    saveBookmarksClassifiedPure active s =
      { combined := zfold [] active
      , urlSet := sfold [] active
      , activeIdx := zfold [] active
      , deadIdx := zfold [] (deadOf active (getAllBookmarksPure s))
      , urlActive := sfold [] active
      , urlDead := sfold [] (deadOf active (getAllBookmarksPure s)) } := by
  unfold saveBookmarksClassifiedPure saveClassifiedOps
  rw [runAll_append, runAll_append, runAll_append, runAll_append]
  have h4 : runAll [StoreOp.del .activeIdxK, StoreOp.del .deadIdxK,
      StoreOp.del .urlActiveK, StoreOp.del .urlDeadK] s
      = { s with activeIdx := [], deadIdx := [], urlActive := [], urlDead := [] } := by
    simp [runAll, execOp]
  rw [h4, runAll_activeLoop, runAll_deadLoop]
  have h2 : ∀ t : Store, runAll [StoreOp.del .combinedK, StoreOp.del .urlSetK] t
      = { t with combined := [], urlSet := [] } := by
    intro t; simp [runAll, execOp]
  rw [h2, runAll_combinedLoop]

/-! ### Helper lemmas: the deduplicator -/

lemma removeDuplicatesAux_sublist (seen : List String) (l : List Bookmark) :
    List.Sublist (removeDuplicatesAux seen l) l := by
  induction l generalizing seen with
  | nil => simp [removeDuplicatesAux]
  | cons bm rest ih =>
    unfold removeDuplicatesAux
    split
    · exact List.Sublist.cons bm (ih seen)
    · exact List.Sublist.cons₂ bm (ih (bm.url :: seen))

lemma removeDuplicatesAux_length_le (seen : List String) (l : List Bookmark) :
    (removeDuplicatesAux seen l).length ≤ l.length :=
  (removeDuplicatesAux_sublist seen l).length_le

lemma removeDuplicatesAux_nodup_avoid (seen : List String) (l : List Bookmark) :
    ((removeDuplicatesAux seen l).map (fun bm => bm.url)).Nodup ∧
      ∀ bm ∈ removeDuplicatesAux seen l, bm.url ∉ seen := by
  induction l generalizing seen with
  | nil => simp [removeDuplicatesAux]
  | cons bm rest ih =>
    unfold removeDuplicatesAux
    split
    · exact ih seen
    · rename_i hnot
      obtain ⟨hnd, havoid⟩ := ih (bm.url :: seen)
      refine ⟨?_, ?_⟩
      · rw [List.map_cons, List.nodup_cons]
        refine ⟨?_, hnd⟩
        intro hmem
        obtain ⟨b, hb, hurl⟩ := List.mem_map.mp hmem
        exact (havoid b hb) (by rw [hurl]; exact List.mem_cons_self _ _)
      · intro b hb
        rcases List.mem_cons.mp hb with rfl | hb
        · exact hnot
        · exact fun hs => (havoid b hb) (List.mem_cons_of_mem _ hs)

lemma removeDuplicatesAux_id (seen : List String) (l : List Bookmark)
    (hnd : (l.map (fun bm => bm.url)).Nodup)
    (hdisj : ∀ bm ∈ l, bm.url ∉ seen) :
    removeDuplicatesAux seen l = l := by
  induction l generalizing seen with
  | nil => rfl
  | cons bm rest ih =>
    rw [List.map_cons, List.nodup_cons] at hnd
    unfold removeDuplicatesAux
    rw [if_neg (hdisj bm (List.mem_cons_self _ _))]
    congr 1
    refine ih (bm.url :: seen) hnd.2 ?_
    intro b hb
    intro hmem
    rcases List.mem_cons.mp hmem with hurl | hs
    · exact hnd.1 (by rw [← hurl]; exact List.mem_map.mpr ⟨b, hb, rfl⟩)
    · exact hdisj b (List.mem_cons_of_mem _ hb) hs

lemma removeDuplicatesAux_length_lt (seen : List String) (l : List Bookmark)
    (h : ¬ ((l.map (fun bm => bm.url)).Nodup) ∨ ∃ bm ∈ l, bm.url ∈ seen) :
    (removeDuplicatesAux seen l).length < l.length := by
  induction l generalizing seen with
  | nil => simp at h
  | cons bm rest ih =>
    unfold removeDuplicatesAux
    split
    · have := removeDuplicatesAux_length_le seen rest
      simp only [List.length_cons]
      omega
    · rename_i hmem
      simp only [List.length_cons]
      have hlt : (removeDuplicatesAux (bm.url :: seen) rest).length < rest.length := by
        apply ih
        rcases h with hnd | ⟨b, hb, hbs⟩
        · rw [List.map_cons, List.nodup_cons] at hnd
          rcases not_and_or.mp hnd with h1 | h2
          · rw [not_not] at h1
            obtain ⟨b, hb, hurl⟩ := List.mem_map.mp h1
            exact Or.inr ⟨b, hb, by rw [hurl]; exact List.mem_cons_self _ _⟩
          · exact Or.inl h2
        · rcases List.mem_cons.mp hb with rfl | hbrest
          · exact absurd hbs hmem
          · exact Or.inr ⟨b, hbrest, List.mem_cons_of_mem _ hbs⟩
      omega

lemma removeDuplicatesAux_find? (seen : List String) (l : List Bookmark) (u : String)
    (hu : u ∉ seen) :
    (removeDuplicatesAux seen l).find? (fun bm => bm.url == u)
      = l.find? (fun bm => bm.url == u) := by
  induction l generalizing seen with
  | nil => rfl
  | cons bm rest ih =>
    unfold removeDuplicatesAux
    split
    · rename_i hmem
      have hne : (bm.url == u) = false := by
        rw [beq_eq_false_iff_ne]
        intro hurl
        exact hu (hurl ▸ hmem)
      rw [ih seen hu, List.find?_cons_of_neg _ (by simp [hne])]
    · cases hbu : (bm.url == u) with
      | true =>
        rw [List.find?_cons_of_pos _ (by simp [hbu]),
          List.find?_cons_of_pos _ (by simp [hbu])]
      | false =>
        rw [List.find?_cons_of_neg _ (by simp [hbu]),
          List.find?_cons_of_neg _ (by simp [hbu])]
        refine ih (bm.url :: seen) ?_
        intro hmem
        rcases List.mem_cons.mp hmem with hurl | hs
        · rw [beq_eq_false_iff_ne] at hbu
          exact hbu hurl.symm
        · exact hu hs

lemma removeDuplicates_find? (l : List Bookmark) (u : String) :
    (removeDuplicates l).find? (fun bm => bm.url == u)
      = l.find? (fun bm => bm.url == u) :=
  removeDuplicatesAux_find? [] l u (List.not_mem_nil u)

lemma removeDuplicates_idem (l : List Bookmark) :
    removeDuplicates (removeDuplicates l) = removeDuplicates l :=
  removeDuplicatesAux_id [] (removeDuplicates l)
    (removeDuplicatesAux_nodup_avoid [] l).1
    (fun bm _ => List.not_mem_nil bm.url)

lemma removeDuplicates_length_eq_iff (l : List Bookmark) :
    (removeDuplicates l).length = l.length ↔ (l.map (fun bm => bm.url)).Nodup := by
  unfold removeDuplicates
  constructor
  · intro hlen
    by_contra hnd
    have := removeDuplicatesAux_length_lt [] l (Or.inl hnd)
    omega
  · intro hnd
    rw [removeDuplicatesAux_id [] l hnd (fun bm _ => List.not_mem_nil bm.url)]

/-- URL membership is preserved by dedup. -/
lemma mem_map_url_removeDuplicates (l : List Bookmark) (u : String) :
    u ∈ (removeDuplicates l).map (fun bm => bm.url) ↔
      u ∈ l.map (fun bm => bm.url) := by
  have hiff : ∀ m : List Bookmark, u ∈ m.map (fun bm => bm.url) ↔
      (m.find? (fun bm => bm.url == u)).isSome := by
    intro m
    rw [List.find?_isSome]
    simp [List.mem_map]
  rw [hiff, hiff, removeDuplicates_find?]

/-! ### Helper lemmas: the clean-mode keep array -/

/-- Outcome of the probe for slot `j` (false when `j` is out of range). -/
def probeAt (healthy : String → Bool) (bs : List Bookmark) (j : Nat) : Bool :=
  match bs[j]? with
  | some bm => healthy bm.url
  | none => false

lemma keepWrite_eq (healthy : String → Bool) (bs : List Bookmark)
    (keep : List Bool) (i : Nat) :
    keepWrite healthy bs keep i =
      if probeAt healthy bs i then keep.set i true else keep := by
  unfold keepWrite probeAt
  cases h : bs[i]? with
  | none => simp
  | some bm => rfl

lemma keepFold_getElem? (healthy : String → Bool) (bs : List Bookmark)
    (order : List Nat) (j : Nat) :
    ∀ keep : List Bool, keep.length = bs.length →
    (order.foldl (keepWrite healthy bs) keep)[j]? =
      (if j ∈ order ∧ probeAt healthy bs j = true then some true else keep[j]?) := by
  induction order with
  | nil =>
    intro keep _
    simp
  | cons i rest ih =>
    intro keep hlen
    rw [List.foldl_cons]
    have hlen' : (keepWrite healthy bs keep i).length = bs.length := by
      rw [keepWrite_eq]
      split <;> simp [List.length_set, hlen]
    rw [ih _ hlen']
    by_cases hr : j ∈ rest ∧ probeAt healthy bs j = true
    · rw [if_pos hr, if_pos ⟨List.mem_cons_of_mem _ hr.1, hr.2⟩]
    · rw [if_neg hr]
      by_cases hij : j = i
      · subst hij
        by_cases hp : probeAt healthy bs j = true
        · have hjlt : j < keep.length := by
            rw [hlen]
            by_contra hc
            unfold probeAt at hp
            rw [List.getElem?_eq_none (by omega)] at hp
            simp at hp
          rw [keepWrite_eq, if_pos hp, if_pos ⟨List.mem_cons_self _ _, hp⟩]
          exact List.getElem?_set_eq_of_lt _ hjlt
        · rw [keepWrite_eq, if_neg (by simp [hp]),
            if_neg (fun hc => hp hc.2)]
      · have hkw : (keepWrite healthy bs keep i)[j]? = keep[j]? := by
          rw [keepWrite_eq]
          split
          · exact List.getElem?_set_ne (fun h => hij h.symm)
          · rfl
        rw [hkw, if_neg ?_]
        intro hc
        rcases List.mem_cons.mp hc.1 with h | h
        · exact hij h
        · exact hr ⟨h, hc.2⟩

lemma keepArray_eq_map (healthy : String → Bool) (bs : List Bookmark)
    (order : List Nat) (hperm : order.Perm (List.range bs.length)) :
    keepArray healthy bs order = bs.map (fun bm => healthy bm.url) := by
  apply List.ext_getElem?
  intro j
  rw [keepArray, keepFold_getElem? _ _ _ _ _ (by simp)]
  have hmem : j ∈ order ↔ j < bs.length := by
    rw [hperm.mem_iff, List.mem_range]
  by_cases hj : j < bs.length
  · obtain ⟨bm, hbm⟩ : ∃ bm, bs[j]? = some bm := by
      have : bs[j]?.isSome := by simp [List.getElem?_eq_getElem hj]
      exact Option.isSome_iff_exists.mp this
    have hp : probeAt healthy bs j = healthy bm.url := by
      unfold probeAt
      rw [hbm]
    have hmap : (bs.map (fun bm => healthy bm.url))[j]? = some (healthy bm.url) := by
      rw [List.getElem?_map, hbm]
      rfl
    rw [hmap]
    by_cases hh : healthy bm.url = true
    · rw [if_pos ⟨hmem.mpr hj, by rw [hp, hh]⟩, hh]
    · rw [if_neg (by rw [hp]; exact fun hc => hh hc.2)]
      rw [List.getElem?_replicate]
      simp only [Bool.not_eq_true] at hh
      rw [if_pos hj, hh]
  · rw [if_neg (fun hc => hj (hmem.mp hc.1))]
    rw [List.getElem?_replicate, if_neg hj]
    rw [List.getElem?_map]
    have : bs[j]? = none := List.getElem?_eq_none (by omega)
    rw [this]
    rfl

lemma collectKept_map (healthy : String → Bool) (bs : List Bookmark) :
    collectKept bs (bs.map (fun bm => healthy bm.url))
      = bs.filter (fun bm => healthy bm.url) := by
  induction bs with
  | nil => rfl
  | cons bm rest ih =>
    rw [List.map_cons, List.filter_cons]
    unfold collectKept
    by_cases h : healthy bm.url = true <;> simp [h, ih]

/-- `removeDeadLinks` computes the healthy-filter of its input, whatever the
completion order of the workers. -/
lemma removeDeadLinksRun_eq_filter (healthy : String → Bool) (bs : List Bookmark)
    (order : List Nat) (hperm : order.Perm (List.range bs.length)) :
    removeDeadLinksRun healthy bs order = bs.filter (fun bm => healthy bm.url) := by
  rw [removeDeadLinksRun, keepArray_eq_map healthy bs order hperm, collectKept_map]

/-! ### Helper lemmas: write sequences under failure oracles -/

lemma runOps_congr : ∀ (ops : List StoreOp) (f g : Nat → Bool),
    (∀ j, f j = g j) → ∀ s, runOps f ops s = runOps g ops s := by
  intro ops
  induction ops with
  | nil => intro f g h s; rfl
  | cons op rest ih =>
    intro f g h s
    show runOps (fun j => f (j + 1)) rest (if f 0 then s else execOp s op)
      = runOps (fun j => g (j + 1)) rest (if g 0 then s else execOp s op)
    rw [h 0]
    exact ih _ _ (fun j => h (j + 1)) _

lemma runOps_false (ops : List StoreOp) : ∀ s, runOps (fun _ => false) ops s = runAll ops s := by
  induction ops with
  | nil => intro s; rfl
  | cons op rest ih =>
    intro s
    show runOps (fun j => false) rest (if false then s else execOp s op)
      = runAll rest (execOp s op)
    rw [if_neg (by simp)]
    exact ih _

/-- Running the write sequence with exactly the `i`-th write failing produces
the same store as running the sequence with the `i`-th write removed: the
failure is ignored and every later write still executes. -/
lemma runOps_failAt : ∀ (ops : List StoreOp) (i : Nat) (s : Store),
    runOps (fun j => j == i) ops s = runAll (ops.eraseIdx i) s := by
  intro ops
  induction ops with
  | nil => intro i s; rfl
  | cons op rest ih =>
    intro i s
    cases i with
    | zero =>
      show runOps (fun j => (j + 1) == 0) rest (if ((0 : Nat) == 0) then s else execOp s op)
        = runAll rest s
      have h0 : ((0 : Nat) == 0) = true := rfl
      rw [if_pos h0]
      rw [runOps_congr rest (fun j => (j + 1) == 0) (fun _ => false) (fun j => by simp)]
      exact runOps_false rest s
    | succ i' =>
      show runOps (fun j => (j + 1) == (i' + 1)) rest
          (if ((0 : Nat) == (i' + 1)) then s else execOp s op)
        = runAll (op :: rest.eraseIdx i') s
      rw [if_neg (by simp)]
      rw [runOps_congr rest (fun j => (j + 1) == (i' + 1)) (fun j => j == i') (fun j => by simp)]
      exact ih i' (execOp s op)

/-! ### Concrete fixtures -/

/-- The record with url "a" and creation time 1 from the §8 scenario. -/
def bmA1 : Bookmark := ⟨"a", "", "", [], 1, 0, "", "unknown"⟩

/-- The record with url "a" and creation time 2 from the §8 scenario. -/
def bmA2 : Bookmark := ⟨"a", "", "", [], 2, 0, "", "unknown"⟩

/-- The record with url "b" and creation time 3 from the §8 scenario. -/
def bmB3 : Bookmark := ⟨"b", "", "", [], 3, 0, "", "unknown"⟩

/-- A fourth record, used for stale pre-clean partition contents. -/
def bmC5' : Bookmark := ⟨"c", "", "", [], 5, 0, "", "unknown"⟩

/-- A record sitting in the dead partition, for the revive scenario. -/
def bmD7 : Bookmark := ⟨"d", "", "", [], 7, 0, "", "dead"⟩

/-- The fake prober of §8: "b" healthy, everything else unhealthy. -/
def proberB : String → Bool := fun u => u == "b"

/-- Store for the §8 end-to-end scenario: combined index holds
a@1, a@2, b@3; partitions empty. -/
def storeC1 : Store :=
  ⟨[(1, .ok bmA1), (2, .ok bmA2), (3, .ok bmB3)], ["a", "b"], [], [], [], []⟩

/-- Store for the partition-invariant witness, with stale partition data. -/
def storeC2 : Store :=
  ⟨[(1, .ok bmA1), (3, .ok bmB3)], ["a", "b"], [(5, .ok bmC5')], [], ["c"], ["y"]⟩

/-- Store for the rewrite-failure counterexample: the active index holds a
record that the first (failing) delete should have removed. -/
def storeC3 : Store :=
  ⟨[(1, .ok bmA1)], ["a"], [(5, .ok bmC5')], [], ["c"], []⟩

/-- Failure oracle making exactly the first rewrite step fail. -/
def failFirst : Nat → Bool := fun i => i == 0

/-- Store for the revive scenario: b@3 active, d@7 dead. -/
def storeC6 : Store :=
  ⟨[(3, .ok bmB3)], ["b"], [(3, .ok bmB3)], [(7, .ok bmD7)], ["b"], ["d"]⟩

/-! ### The claims -/

/-- C1 counterexample: on the §8 scenario (records a@1, a@2, b@3; prober
marking only "b" healthy) the dead partition written by `clean` is NOT the
single record a@1 — it contains both a@1 and a@2, because
`saveBookmarksClassified` recomputes the dead set from the full pre-dedup
index. -/
theorem C1_counterexample :
    getFromZSetPure ((cleanBookmarksRun proberB [0, 1] storeC1).deadIdx) ≠ [bmA1] ∧
    getFromZSetPure ((cleanBookmarksRun proberB [0, 1] storeC1).deadIdx) = [bmA1, bmA2] := by
  constructor
  · decide
  · decide

/-- C1 (amended): on the §8 scenario, `clean` produces an active partition
holding exactly b@3 (count 1) and a dead partition holding both records with
url "a" (a@1 and a@2, index count 2, URL-set count 1); the printed
removed-dead count (deduplicated count minus active count) is 1. -/
theorem C1_amended_scenario :
    getFromZSetPure ((cleanBookmarksRun proberB [0, 1] storeC1).activeIdx) = [bmB3] ∧
    (cleanBookmarksRun proberB [0, 1] storeC1).urlActive = ["b"] ∧
    getFromZSetPure ((cleanBookmarksRun proberB [0, 1] storeC1).deadIdx) = [bmA1, bmA2] ∧
    (cleanBookmarksRun proberB [0, 1] storeC1).urlDead = ["a"] ∧
    getFromZSetPure ((cleanBookmarksRun proberB [0, 1] storeC1).combined) = [bmB3] ∧
    (removeDuplicates (getAllBookmarksPure storeC1)).length
      - (removeDeadLinksRun proberB
          (removeDuplicates (getAllBookmarksPure storeC1)) [0, 1]).length = 1 := by
  refine ⟨?_, ?_, ?_, ?_, ?_, ?_⟩ <;> decide

/-- C3 counterexample: with the first rewrite step (the delete of the active
index) failing, `saveBookmarksClassified` still returns success — not the
error — and every later rewrite step executes: the final store keeps the
stale active index (the failed delete had no effect) while the dead
partition and the combined keys have been rewritten. -/
theorem C3_counterexample :
    saveBookmarksClassifiedRun false failFirst [] storeC3 ≠ Except.error () ∧
    saveBookmarksClassifiedRun false failFirst [] storeC3 =
      Except.ok ⟨[], [], [(5, ZMember.ok bmC5')], [(1, ZMember.ok bmA1)], [], ["a"]⟩ := by
  have h2 : saveBookmarksClassifiedRun false failFirst [] storeC3 =
      Except.ok (⟨[], [], [(5, ZMember.ok bmC5')], [(1, ZMember.ok bmA1)], [], ["a"]⟩ : Store) := by
    rfl
  refine ⟨?_, h2⟩
  rw [h2]
  exact fun h => Except.noConfusion h

/-- C3 (amended): only a failure of the initial full-index read is returned
to the caller (before any rewrite step runs); errors of the individual
rewrite steps are ignored — the function reports success for every failure
oracle, and when exactly step `i` fails the store ends as if the write
sequence had been executed with the `i`-th write removed, i.e. every later
step still executes. -/
theorem C3_amended (active : List Bookmark) (s : Store) (fails : Nat → Bool) (i : Nat) :
    saveBookmarksClassifiedRun true fails active s = Except.error () ∧
    saveBookmarksClassifiedRun false fails active s =
      Except.ok (runOps fails
        (saveClassifiedOps active (deadOf active (getAllBookmarksPure s))) s) ∧
    saveBookmarksClassifiedRun false (fun j => j == i) active s =
      Except.ok (runAll
        ((saveClassifiedOps active (deadOf active (getAllBookmarksPure s))).eraseIdx i) s) := by
  refine ⟨rfl, rfl, ?_⟩
  show Except.ok (runOps (fun j => j == i) _ s) = _
  rw [runOps_failAt]

/-- C2: after any successful reconciliation (a `clean` run that reaches the
rewrite), the active and dead URL membership sets are disjoint and their
union is exactly the URL set of the deduplicated input, whatever the probe
outcomes and the workers' completion order. -/
theorem C2_partition_invariant (healthy : String → Bool) (order : List Nat)
    (s s' : Store) (hne : getAllBookmarksPure s ≠ [])
    (hord : order.Perm (List.range (removeDuplicates (getAllBookmarksPure s)).length))
    (hs' : s' = cleanBookmarksRun healthy order s) (u : String) :
    ¬ (u ∈ s'.urlActive ∧ u ∈ s'.urlDead) ∧
    ((u ∈ s'.urlActive ∨ u ∈ s'.urlDead) ↔
      u ∈ (removeDuplicates (getAllBookmarksPure s)).map (fun bm => bm.url)) := by
  subst hs'
  rw [cleanBookmarksRun]
  rw [if_neg (by simpa [List.isEmpty_iff] using hne)]
  rw [removeDeadLinksRun_eq_filter _ _ _ hord, saveClassifiedPure_fields]
  dsimp only
  have hA : ∀ v : String,
      v ∈ sfold []
        ((removeDuplicates (getAllBookmarksPure s)).filter (fun bm => healthy bm.url)) ↔
      ∃ bm, (bm ∈ removeDuplicates (getAllBookmarksPure s) ∧ healthy bm.url = true) ∧
        bm.url = v := by
    intro v
    rw [mem_sfold]
    simp [List.mem_filter]
  have hD : ∀ v : String,
      v ∈ sfold []
        (deadOf ((removeDuplicates (getAllBookmarksPure s)).filter (fun bm => healthy bm.url))
          (getAllBookmarksPure s)) ↔
      ∃ bm, (bm ∈ getAllBookmarksPure s ∧
        ∀ a ∈ (removeDuplicates (getAllBookmarksPure s)).filter (fun bm => healthy bm.url),
          ¬ a.url = bm.url) ∧ bm.url = v := by
    intro v
    rw [mem_sfold]
    simp [deadOf, List.mem_filter, List.any_eq_true]
  constructor
  · rintro ⟨h1, h2⟩
    obtain ⟨a0, ⟨ha0, hheal⟩, ha0u⟩ := (hA u).mp h1
    obtain ⟨bm, ⟨_, hnone⟩, hbmu⟩ := (hD u).mp h2
    exact hnone a0 (List.mem_filter.mpr ⟨ha0, hheal⟩) (by rw [ha0u, hbmu])
  · constructor
    · rintro (h1 | h2)
      · obtain ⟨a0, ⟨ha0, _⟩, ha0u⟩ := (hA u).mp h1
        exact List.mem_map.mpr ⟨a0, ha0, ha0u⟩
      · obtain ⟨bm, ⟨hbm, _⟩, hbmu⟩ := (hD u).mp h2
        rw [mem_map_url_removeDuplicates]
        exact List.mem_map.mpr ⟨bm, hbm, hbmu⟩
    · intro hmem
      obtain ⟨bm, hbm, hbmu⟩ := List.mem_map.mp hmem
      by_cases hact : u ∈ sfold []
          ((removeDuplicates (getAllBookmarksPure s)).filter (fun bm => healthy bm.url))
      · exact Or.inl hact
      · refine Or.inr ((hD u).mpr ⟨bm, ⟨?_, ?_⟩, hbmu⟩)
        · exact (removeDuplicatesAux_sublist [] _).subset hbm
        · intro a ha hau
          exact hact ((hA u).mpr ⟨a, List.mem_filter.mp ha, by rw [hau, hbmu]⟩)

/-- C2 witness: the invariant holds on a concrete clean run, instantiated at
url "a". -/
theorem C2_partition_invariant_witness :
    getAllBookmarksPure storeC2 ≠ [] ∧
    List.Perm [1, 0] (List.range (removeDuplicates (getAllBookmarksPure storeC2)).length) ∧
    (¬ ("a" ∈ (cleanBookmarksRun proberB [1, 0] storeC2).urlActive ∧
        "a" ∈ (cleanBookmarksRun proberB [1, 0] storeC2).urlDead) ∧
      (("a" ∈ (cleanBookmarksRun proberB [1, 0] storeC2).urlActive ∨
        "a" ∈ (cleanBookmarksRun proberB [1, 0] storeC2).urlDead) ↔
        "a" ∈ (removeDuplicates (getAllBookmarksPure storeC2)).map (fun bm => bm.url))) :=
  ⟨by decide, by decide,
    C2_partition_invariant proberB [1, 0] storeC2 _ (by decide) (by decide) rfl "a"⟩

/-- C4: `urlHealthy` is healthy exactly when the HEAD stage yields a response
with status below 400, or the HEAD stage fails (error or status at least 400)
and the ranged-GET request is built and yields a response with status below
400; in every other case it is unhealthy — being a total Bool function it
never returns an error. -/
theorem C4_urlHealthy_classification (head get : HTTPResult) (buildOk : Bool) :
    urlHealthy head buildOk get = true ↔
      ((∃ st, head = HTTPResult.resp st ∧ st < 400) ∨
       ((head = HTTPResult.failed ∨ ∃ st, head = HTTPResult.resp st ∧ 400 ≤ st) ∧
        buildOk = true ∧ ∃ st, get = HTTPResult.resp st ∧ st < 400)) := by
  cases head with
  | failed =>
    cases get with
    | failed => cases buildOk <;> simp [urlHealthy, urlHealthyFallback]
    | resp st =>
      cases buildOk <;> simp [urlHealthy, urlHealthyFallback]
  | resp st =>
    by_cases hst : st < 400
    · simp [urlHealthy, hst]
    · cases get with
      | failed => cases buildOk <;> simp [urlHealthy, urlHealthyFallback, hst]
      | resp st2 =>
        cases buildOk with
        | false => simp [urlHealthy, urlHealthyFallback, hst]
        | true =>
          simp [urlHealthy, urlHealthyFallback, hst]
          omega

/-- C5: dedup is idempotent; its output is never longer than its input, with
equality exactly when all URLs are distinct; it is an order-preserving
sublist whose URLs are pairwise distinct; and for every URL the kept record
is the first-occurring one of the input (exact case-sensitive string
equality). -/
theorem C5_dedupe_algebra (bs : List Bookmark) :
    removeDuplicates (removeDuplicates bs) = removeDuplicates bs ∧
    (removeDuplicates bs).length ≤ bs.length ∧
    ((removeDuplicates bs).length = bs.length ↔ (bs.map (fun bm => bm.url)).Nodup) ∧
    List.Sublist (removeDuplicates bs) bs ∧
    ((removeDuplicates bs).map (fun bm => bm.url)).Nodup ∧
    ∀ u, (removeDuplicates bs).find? (fun bm => bm.url == u)
          = bs.find? (fun bm => bm.url == u) :=
  ⟨removeDuplicates_idem bs, removeDuplicatesAux_length_le [] bs,
   removeDuplicates_length_eq_iff bs, removeDuplicatesAux_sublist [] bs,
   (removeDuplicatesAux_nodup_avoid [] bs).1, fun u => removeDuplicates_find? bs u⟩

/-- C6: reviving a URL found in the dead partition writes exactly that one
record into the active index, the active URL set and the combined index,
removes the URL from the dead URL set but leaves its dead-index row in
place, and reports success; reviving a URL not found there reports "not
found" and changes nothing. -/
theorem C6_revive (u : String) (s : Store) :
    (∀ bm, (getFromZSetPure s.deadIdx).find? (fun b => b.url == u) = some bm →
      ∃ s₂, deadReviveCmd u s = some s₂ ∧
        bm.url = u ∧
        s₂.deadIdx = s.deadIdx ∧
        s₂.urlSet = s.urlSet ∧
        (∀ p, p ∈ s₂.activeIdx ↔
          p = (bm.createdAt, ZMember.ok bm) ∨ (p ∈ s.activeIdx ∧ p.2 ≠ ZMember.ok bm)) ∧
        (∀ p, p ∈ s₂.combined ↔
          p = (bm.createdAt, ZMember.ok bm) ∨ (p ∈ s.combined ∧ p.2 ≠ ZMember.ok bm)) ∧
        (∀ v, v ∈ s₂.urlActive ↔ v ∈ s.urlActive ∨ v = bm.url) ∧
        (∀ v, v ∈ s₂.urlDead ↔ v ∈ s.urlDead ∧ v ≠ bm.url)) ∧
    ((getFromZSetPure s.deadIdx).find? (fun b => b.url == u) = none →
      deadReviveCmd u s = none) := by
  constructor
  · intro bm hfind
    refine ⟨{ s with
        activeIdx := zinsert s.activeIdx bm.createdAt (.ok bm),
        urlActive := saddL s.urlActive bm.url,
        urlDead := sremL s.urlDead bm.url,
        combined := zinsert s.combined bm.createdAt (.ok bm) },
      ?_, ?_, rfl, rfl, ?_, ?_, ?_, ?_⟩
    · rw [deadReviveCmd, hfind]
    · simpa using List.find?_some hfind
    · intro p
      exact mem_zinsert
    · intro p
      exact mem_zinsert
    · intro v
      exact mem_saddL
    · intro v
      exact mem_sremL
  · intro hnone
    rw [deadReviveCmd, hnone]

/-- C6 witness: reviving "d" (present in the dead partition of a concrete
store) succeeds with the described effects; reviving "zzz" (absent) fails. -/
theorem C6_revive_witness :
    (getFromZSetPure storeC6.deadIdx).find? (fun b => b.url == "d") = some bmD7 ∧
    (∃ s₂, deadReviveCmd "d" storeC6 = some s₂ ∧
      bmD7.url = "d" ∧
      s₂.deadIdx = storeC6.deadIdx ∧
      s₂.urlSet = storeC6.urlSet ∧
      (∀ p, p ∈ s₂.activeIdx ↔
        p = (bmD7.createdAt, ZMember.ok bmD7) ∨
          (p ∈ storeC6.activeIdx ∧ p.2 ≠ ZMember.ok bmD7)) ∧
      (∀ p, p ∈ s₂.combined ↔
        p = (bmD7.createdAt, ZMember.ok bmD7) ∨
          (p ∈ storeC6.combined ∧ p.2 ≠ ZMember.ok bmD7)) ∧
      (∀ v, v ∈ s₂.urlActive ↔ v ∈ storeC6.urlActive ∨ v = bmD7.url) ∧
      (∀ v, v ∈ s₂.urlDead ↔ v ∈ storeC6.urlDead ∧ v ≠ bmD7.url)) ∧
    deadReviveCmd "zzz" storeC6 = none :=
  ⟨by decide, (C6_revive "d" storeC6).1 bmD7 (by decide),
    (C6_revive "zzz" storeC6).2 (by decide)⟩

/-- C7: whatever order the probe workers complete in (any permutation of the
slot indices), the clean-mode bulk prober returns exactly the records whose
URL was classified healthy, in input order — each outcome lands in the keep
slot of the record's original position. -/
theorem C7_keep_order_independent (healthy : String → Bool) (bs : List Bookmark)
    (order : List Nat) (hperm : order.Perm (List.range bs.length)) :
    removeDeadLinksRun healthy bs order = bs.filter (fun bm => healthy bm.url) :=
  removeDeadLinksRun_eq_filter healthy bs order hperm

/-- C7 witness: with the two workers completing in reversed order the result
is still the healthy-filter of the input in input order. -/
theorem C7_keep_order_independent_witness :
    List.Perm [1, 0] (List.range [bmA1, bmB3].length) ∧
    removeDeadLinksRun proberB [bmA1, bmB3] [1, 0]
      = [bmA1, bmB3].filter (fun bm => proberB bm.url) :=
  ⟨by decide, C7_keep_order_independent proberB [bmA1, bmB3] [1, 0] (by decide)⟩

/-- C8: a stored entry that fails to parse is skipped silently during a full
scan — the scan returns the same records (and the same count) as if the
entry were not there, and still reports success rather than an error. -/
theorem C8_malformed_skipped (pre post : List (Int × ZMember)) (sc : Int) (raw : String) :
    getFromZSet (Except.ok (pre ++ (sc, ZMember.bad raw) :: post))
      = Except.ok (getFromZSetPure (pre ++ post)) ∧
    (getFromZSetPure (pre ++ (sc, ZMember.bad raw) :: post)).length
      = (getFromZSetPure (pre ++ post)).length := by
  constructor
  · show Except.ok (getFromZSetPure _) = _
    simp [getFromZSetPure, parseMember]
  · simp [getFromZSetPure, parseMember]

/-- C9: every state reachable in a bulk probe run with concurrency ceiling
`k` has at most `k` probes in flight (the buffered semaphore channel admits a
send only below capacity), the counters are consistent, and when the
wait-group barrier lets the function return all `n` probes have finished. -/
theorem C9_concurrency_bound (k n : Nat) (st : ProbeRun) (h : probeReach k n st) :
    st.inFlight ≤ k ∧ st.finished + st.inFlight = st.spawned ∧ st.spawned ≤ n ∧
      (probeReturn n st → st.finished = n ∧ st.inFlight = 0) := by
  have main : st.inFlight ≤ k ∧ st.finished + st.inFlight = st.spawned ∧ st.spawned ≤ n := by
    induction h with
    | refl => simp
    | tail hreach hstep ih =>
      cases hstep with
      | spawn sp fl fin hsp hfl =>
        simp only at ih ⊢
        omega
      | finish sp fl fin =>
        simp only at ih ⊢
        omega
  refine ⟨main.1, main.2.1, main.2.2, ?_⟩
  rintro ⟨h1, h2⟩
  have := main.2.1
  constructor <;> omega

/-- C9 witness: a concrete run with one record and ceiling one reaches the
terminal state, which satisfies the bound and the completion property. -/
theorem C9_concurrency_bound_witness :
    probeReach 1 1 ⟨1, 0, 1⟩ ∧
    ((⟨1, 0, 1⟩ : ProbeRun).inFlight ≤ 1 ∧
      (⟨1, 0, 1⟩ : ProbeRun).finished + (⟨1, 0, 1⟩ : ProbeRun).inFlight
        = (⟨1, 0, 1⟩ : ProbeRun).spawned ∧
      (⟨1, 0, 1⟩ : ProbeRun).spawned ≤ 1 ∧
      (probeReturn 1 ⟨1, 0, 1⟩ →
        (⟨1, 0, 1⟩ : ProbeRun).finished = 1 ∧ (⟨1, 0, 1⟩ : ProbeRun).inFlight = 0)) := by
  have hchain : probeReach 1 1 ⟨1, 0, 1⟩ :=
    Relation.ReflTransGen.tail
      (Relation.ReflTransGen.tail Relation.ReflTransGen.refl
        (probeStep.spawn 0 0 0 (by decide) (by decide)))
      (probeStep.finish 1 0 0)
  exact ⟨hchain, C9_concurrency_bound 1 1 ⟨1, 0, 1⟩ hchain⟩

/-- C10: the check operation is read-only — for every store, prober outcome
and completion order, the store component it passes back is the input store,
every index and membership set unchanged. -/
theorem C10_check_readonly (healthy : String → Bool) (order : List Nat) (s : Store) :
    (checkBookmarksRun healthy order s).1 = s ∧
    (checkBookmarksRun healthy order s).1.combined = s.combined ∧
    (checkBookmarksRun healthy order s).1.urlSet = s.urlSet ∧
    (checkBookmarksRun healthy order s).1.activeIdx = s.activeIdx ∧
    (checkBookmarksRun healthy order s).1.deadIdx = s.deadIdx ∧
    (checkBookmarksRun healthy order s).1.urlActive = s.urlActive ∧
    (checkBookmarksRun healthy order s).1.urlDead = s.urlDead :=
  ⟨rfl, rfl, rfl, rfl, rfl, rfl, rfl⟩
